import Mathlib

/-!
Verification development for the ANS generation-pipeline orchestrator.

The definitions below are a shallow embedding of the Python source:
  * `src/ans/backend/llm.py`     — `generate_with_retry`
  * `src/ans/backend/thread.py`  — `BackgroundThread` (stream draining,
    `load_synopsis_from_project`, `generate_outline`, `generate_characters`,
    `generate_world`, `approve_section`, `start_chapter_research_loop`)
  * `src/ans/backend/project.py` — `ProjectManager.save_progress`

Python strings are embedded as `List Char`; file contents are `Option (List Char)`
(`none` = file absent); the streaming backend is a function from the attempt
index to the outcome of that attempt.  Side effects (log lines, error
notifications, backoff sleeps, pause-gate checks, signal emissions) are made
explicit as traces.
-/

namespace ANS

/-- Character list of a string literal (Python `str` is embedded as `List Char`). -/
def chars (s : String) : List Char := s.data

/-- Whitespace set of Python `str.strip()` / `str.split()` (ASCII part). -/
def isPySpace (c : Char) : Bool :=
  c = ' ' || c = '\t' || c = '\n' || c = '\r' || c = '\x0b' || c = '\x0c'

/-- Python `s.strip()`: drop whitespace from both ends. -/
def pyStrip (s : List Char) : List Char :=
  List.rdropWhile isPySpace (List.dropWhile isPySpace s)

/-- Decimal digit character, as produced by Python `str(int)`. -/
def digitChar (d : Nat) : Char := Char.ofNat (48 + d % 10)

/-- Fuel-driven digit expansion for `natToChars`. -/
def natToCharsGo : Nat → Nat → List Char → List Char
  | 0, n, acc => digitChar n :: acc
  | fuel + 1, n, acc =>
    if n < 10 then digitChar n :: acc
    else natToCharsGo fuel (n / 10) (digitChar (n % 10) :: acc)

/-- Python `str(n)` for a natural number. -/
def natToChars (n : Nat) : List Char := natToCharsGo n n []

/-- Python `dict` assignment `m[k] = v`: replace in place if the key exists,
otherwise append (insertion order preserved, as in Python 3.7+). -/
def dictInsert {κ α : Type} [DecidableEq κ] : List (κ × α) → κ → α → List (κ × α)
  | [], k, v => [(k, v)]
  | (k', v') :: rest, k, v =>
    if k' = k then (k', v) :: rest else (k', v') :: dictInsert rest k v

/-- Python `dict` lookup `m.get(k)`. -/
def dictLookup {κ α : Type} [DecidableEq κ] : List (κ × α) → κ → Option α
  | [], _ => none
  | (k, v) :: rest, key => if k = key then some v else dictLookup rest key

/-- Keys of an embedded dict, in insertion order. -/
def dictKeys {κ α : Type} (m : List (κ × α)) : List κ := m.map Prod.fst

/-! ### Retry Invoker — `generate_with_retry` (src/ans/backend/llm.py, lines 36-71).

`thread.py`'s `_generate_with_retry` (lines 103-135) has the identical control
structure (the client/None guard, the `hasattr(stream, '__iter__')` guard, the
`2 ** attempt` backoff and the final error notification), so this embedding
covers both call sites cited by the claims. -/

/-- One streamed chunk: Python duck-types dict chunks (`chunk['response']`) and
object chunks (`chunk.response`); both reduce to an optional response field. -/
structure Chunk where
  response : Option (List Char)
deriving DecidableEq

/-- Result of one successful `client.generate(...)` call: the returned handle
and whether it is iterable (`hasattr(stream, '__iter__')`). -/
structure StreamHandle where
  iterable : Bool
  chunks : List Chunk
deriving DecidableEq

/-- Behaviour of the backend: outcome of the k-th invocation attempt.
`Except.error e` models `client.generate` raising with message `e`. -/
abbrev Backend := Nat → Except (List Char) StreamHandle

/-- Observable outcome of `generate_with_retry`: returned value, number of
backend invocations, backoff sleeps in order, log lines, and error-callback
notifications. -/
structure RetryTrace where
  result : Option StreamHandle
  calls : Nat
  sleeps : List Nat
  logs : List (List Char)
  errorNotes : List (List Char)
deriving DecidableEq

/-- Log line `"LLM connection attempt {n}/{max} failed: {e}"`. -/
def attemptFailMsg (attemptNum maxRetries : Nat) (e : List Char) : List Char :=
  chars "LLM connection attempt " ++ natToChars attemptNum ++ chars "/" ++
    natToChars maxRetries ++ chars " failed: " ++ e

/-- Error message `"Failed to connect to LLM after {max} attempts: {e}"`. -/
def exhaustMsg (maxRetries : Nat) (e : List Char) : List Char :=
  chars "Failed to connect to LLM after " ++ natToChars maxRetries ++
    chars " attempts: " ++ e

/-- Body of `for attempt in range(max_retries)` in `generate_with_retry`:
`attempt` is the current index, `remaining` the iterations left. -/
def retryGo (client : Option Backend) (maxRetries : Nat) :
    Nat → Nat → RetryTrace
  | _, 0 => ⟨none, 0, [], [], []⟩
  | attempt, remaining + 1 =>
    match client with
    | none => ⟨none, 0, [], [chars "Error: LLM client is None"], []⟩
    | some gen =>
      match gen attempt with
      | Except.ok stream =>
        if stream.iterable then
          ⟨some stream, 1, [], [], []⟩
        else
          ⟨none, 1, [], [chars "Error: LLM response is not iterable"], []⟩
      | Except.error e =>
        let failMsg := attemptFailMsg (attempt + 1) maxRetries e
        if attempt + 1 < maxRetries then
          let rest := retryGo client maxRetries (attempt + 1) remaining
          ⟨rest.result, rest.calls + 1, 2 ^ attempt :: rest.sleeps,
            failMsg :: rest.logs, rest.errorNotes⟩
        else
          ⟨none, 1, [], [failMsg, exhaustMsg maxRetries e],
            [exhaustMsg maxRetries e]⟩

/-- Embedding of `generate_with_retry(client, model, prompt, ..., max_retries)`:
model, prompt and temperature do not influence the retry control flow and are
absorbed into the backend behaviour. -/
def generate_with_retry (client : Option Backend) (maxRetries : Nat) : RetryTrace :=
  retryGo client maxRetries 0 maxRetries

/-- Backend that fails every attempt with a fixed transport error. -/
def genAllFail : Backend := fun _ => Except.error (chars "connection refused")

/-- Backend that returns a non-iterable response on every attempt. -/
def genNonIter : Backend := fun _ => Except.ok ⟨false, []⟩

/-! ### Section approval counter update (src/ans/backend/thread.py, lines 1943-1947).

The source reads:
```
next_section = current_section + 1
is_chapter_complete = (next_section > 3)  # Assume 3 sections per chapter for demo
next_chapter = current_chapter if not is_chapter_complete else current_chapter + 1
next_section_reset = 1 if is_chapter_complete else next_section
```
Note that the configured `self.sections_per_chapter` (set from the settings
spinbox, `main_window.py` line 1442) does not occur here: the threshold is the
literal `3`. -/

/-- Counter update performed by `approve_section`: maps the persisted
`(CurrentChapter, CurrentSection)` pair to the pair written back. -/
def approveSectionCounters (currentChapter currentSection : Nat) : Nat × Nat :=
  let nextSection := currentSection + 1
  let nextChapter := if nextSection > 3 then currentChapter + 1 else currentChapter
  let nextSectionReset := if nextSection > 3 then 1 else nextSection
  (nextChapter, nextSectionReset)

/-- Unfolding equation of `retryGo` when the current attempt succeeds. -/
theorem retryGo_ok (gen : Backend) (maxRetries attempt remaining : Nat)
    (s : StreamHandle) (h : gen attempt = Except.ok s) :
    retryGo (some gen) maxRetries attempt (remaining + 1) =
      if s.iterable then ⟨some s, 1, [], [], []⟩
      else ⟨none, 1, [], [chars "Error: LLM response is not iterable"], []⟩ := by
  simp only [retryGo, h]

/-- Unfolding equation of `retryGo` when a non-final attempt raises. -/
theorem retryGo_err_retry (gen : Backend) (maxRetries attempt remaining : Nat)
    (e : List Char) (h : gen attempt = Except.error e)
    (hlt : attempt + 1 < maxRetries) :
    retryGo (some gen) maxRetries attempt (remaining + 1) =
      ⟨(retryGo (some gen) maxRetries (attempt + 1) remaining).result,
        (retryGo (some gen) maxRetries (attempt + 1) remaining).calls + 1,
        2 ^ attempt :: (retryGo (some gen) maxRetries (attempt + 1) remaining).sleeps,
        attemptFailMsg (attempt + 1) maxRetries e ::
          (retryGo (some gen) maxRetries (attempt + 1) remaining).logs,
        (retryGo (some gen) maxRetries (attempt + 1) remaining).errorNotes⟩ := by
  simp only [retryGo, h, if_pos hlt]

/-- Unfolding equation of `retryGo` when the final attempt raises. -/
theorem retryGo_err_last (gen : Backend) (maxRetries attempt remaining : Nat)
    (e : List Char) (h : gen attempt = Except.error e)
    (hlt : ¬ attempt + 1 < maxRetries) :
    retryGo (some gen) maxRetries attempt (remaining + 1) =
      ⟨none, 1, [], [attemptFailMsg (attempt + 1) maxRetries e, exhaustMsg maxRetries e],
        [exhaustMsg maxRetries e]⟩ := by
  simp only [retryGo, h, if_neg hlt]

/-- Behaviour specification of `retryGo` for a present client whose successful
responses are always iterable: invocation count is bounded by the remaining
iterations, the sleeps are exactly `2 ^ attempt, 2 ^ (attempt + 1), …`, a
`none` result means every remaining attempt was made and failed with the error
notification fired, and a successful result fires no error notification. -/
theorem retryGo_spec (gen : Backend) (maxRetries : Nat)
    (hwb : ∀ k s, gen k = Except.ok s → s.iterable = true) :
    ∀ remaining attempt, attempt + remaining = maxRetries →
      (retryGo (some gen) maxRetries attempt remaining).calls ≤ remaining ∧
      (∃ m, (retryGo (some gen) maxRetries attempt remaining).sleeps =
        (List.range m).map fun i => 2 ^ (attempt + i)) ∧
      ((retryGo (some gen) maxRetries attempt remaining).result = none →
        0 < remaining →
        (∃ e, gen (maxRetries - 1) = Except.error e) ∧
        (retryGo (some gen) maxRetries attempt remaining).calls = remaining ∧
        (retryGo (some gen) maxRetries attempt remaining).errorNotes ≠ []) ∧
      (∀ s, (retryGo (some gen) maxRetries attempt remaining).result = some s →
        (retryGo (some gen) maxRetries attempt remaining).errorNotes = []) := by
  intro remaining
  induction remaining with
  | zero =>
    intro attempt _
    refine ⟨Nat.le_refl _, ⟨0, by simp [retryGo]⟩, ?_, ?_⟩
    · intro _ h; exact absurd h (Nat.lt_irrefl 0)
    · intro s hs; simp [retryGo] at hs
  | succ remaining ih =>
    intro attempt hsum
    cases hga : gen attempt with
    | ok s =>
      have hit : s.iterable = true := hwb attempt s hga
      rw [retryGo_ok gen maxRetries attempt remaining s hga, if_pos hit]
      refine ⟨Nat.succ_le_succ (Nat.zero_le _), ⟨0, by simp⟩, ?_, ?_⟩
      · intro hc; simp at hc
      · intro _ _; rfl
    | error e =>
      by_cases hlt : attempt + 1 < maxRetries
      · have hrem : 0 < remaining := by omega
        have hsum' : (attempt + 1) + remaining = maxRetries := by omega
        obtain ⟨ihc, ⟨m, ihs⟩, ihn, ihok⟩ := ih (attempt + 1) hsum'
        rw [retryGo_err_retry gen maxRetries attempt remaining e hga hlt]
        refine ⟨Nat.succ_le_succ ihc, ⟨m + 1, ?_⟩, ?_, ?_⟩
        · rw [List.range_succ_eq_map, List.map_cons, List.map_map, ihs]
          refine congrArg₂ List.cons (by simp) ?_
          refine (List.map_congr_left ?_).symm
          intro i _
          simp only [Function.comp_apply]
          rw [show attempt + Nat.succ i = attempt + 1 + i by omega]
        · intro hres _
          obtain ⟨he, hc, hn⟩ := ihn hres hrem
          exact ⟨he, by simp only [hc], hn⟩
        · intro t ht; exact ihok t ht
      · have hattempt : attempt = maxRetries - 1 := by omega
        rw [retryGo_err_last gen maxRetries attempt remaining e hga hlt]
        refine ⟨by show 1 ≤ remaining + 1; omega, ⟨0, by simp⟩, ?_, ?_⟩
        · intro _ _
          refine ⟨⟨e, by rw [← hattempt]; exact hga⟩,
            by show 1 = remaining + 1; omega, by simp⟩
        · intro t ht; simp at ht

/-- Claim C2: with a present backend client whose successful responses are
iterable, and `maxRetries ≥ 1`, the backend is invoked at most `maxRetries`
times; the wait after the k-th failed non-final attempt (0-indexed) is
`2 ^ k` time units; and the failure value (`None`) is returned only after the
final attempt has been made and failed, in which case (and only then) the
distinct error notification callback fires. -/
theorem generate_with_retry_bounded_backoff (gen : Backend) (maxRetries : Nat)
    (hmax : 1 ≤ maxRetries)
    (hwb : ∀ k s, gen k = Except.ok s → s.iterable = true) :
    (generate_with_retry (some gen) maxRetries).calls ≤ maxRetries ∧
    (∃ m, (generate_with_retry (some gen) maxRetries).sleeps =
      (List.range m).map fun k => 2 ^ k) ∧
    ((generate_with_retry (some gen) maxRetries).result = none →
      (∃ e, gen (maxRetries - 1) = Except.error e) ∧
      (generate_with_retry (some gen) maxRetries).calls = maxRetries ∧
      (generate_with_retry (some gen) maxRetries).errorNotes ≠ []) ∧
    (∀ s, (generate_with_retry (some gen) maxRetries).result = some s →
      (generate_with_retry (some gen) maxRetries).errorNotes = []) := by
  obtain ⟨hc, hs, hn, hok⟩ := retryGo_spec gen maxRetries hwb maxRetries 0 (by omega)
  exact ⟨hc, by simpa using hs, fun hres => hn hres (by omega), hok⟩

/-- Witness for C2: a backend failing on both of 2 attempts is invoked exactly
twice, sleeps `2 ^ 0 = 1` unit between the attempts, and fires the error
notification after the final failure. -/
theorem generate_with_retry_bounded_backoff_witness :
    (generate_with_retry (some genAllFail) 2).calls ≤ 2 ∧
    (generate_with_retry (some genAllFail) 2).result = none ∧
    (generate_with_retry (some genAllFail) 2).calls = 2 ∧
    (generate_with_retry (some genAllFail) 2).errorNotes ≠ [] := by
  have h := generate_with_retry_bounded_backoff genAllFail 2 (by decide)
    (fun k s hk => by simp [genAllFail] at hk)
  have hres : (generate_with_retry (some genAllFail) 2).result = none := by decide
  obtain ⟨hc, _, hn, _⟩ := h
  obtain ⟨_, hcalls, hnotes⟩ := hn hres
  exact ⟨hc, hres, hcalls, hnotes⟩

/-- Counterexample for C3: with `maxRetries = 3` and a backend returning a
non-iterable response on the very first attempt, the invoker makes exactly one
call, performs no backoff sleep, returns the failure value immediately, and the
error notification callback never fires — although two attempts remained.  A
transport failure in the same position is handled differently: it leads to all
3 attempts being made.  So a non-iterable response is not handled identically
to a transport failure. -/
theorem nonIterable_not_retried_counterexample :
    (generate_with_retry (some genNonIter) 3).calls = 1 ∧
    (generate_with_retry (some genNonIter) 3).sleeps = [] ∧
    (generate_with_retry (some genNonIter) 3).result = none ∧
    (generate_with_retry (some genNonIter) 3).errorNotes = [] ∧
    (generate_with_retry (some genNonIter) 3).logs =
      [chars "Error: LLM response is not iterable"] ∧
    (generate_with_retry (some genAllFail) 3).calls = 3 := by
  decide

/-- Claim C3 (amended): a backend response that is returned without raising but
is not iterable aborts the retry loop at once: if the attempts before attempt
`k` all raised and attempt `k` returns a non-iterable response, the invoker
returns the failure value with exactly `k + 1` calls made, only the `k` backoff
sleeps of the earlier transport failures, and no error notification. -/
theorem nonIterable_returns_immediately (gen : Backend) (maxRetries k : Nat)
    (hk : k < maxRetries)
    (hfail : ∀ j, j < k → ∃ e, gen j = Except.error e)
    (hni : ∃ s, gen k = Except.ok s ∧ s.iterable = false) :
    (generate_with_retry (some gen) maxRetries).result = none ∧
    (generate_with_retry (some gen) maxRetries).calls = k + 1 ∧
    (generate_with_retry (some gen) maxRetries).errorNotes = [] ∧
    (generate_with_retry (some gen) maxRetries).sleeps.length = k := by
  obtain ⟨s, hgk, hsit⟩ := hni
  suffices h : ∀ remaining attempt, attempt + remaining = maxRetries → attempt ≤ k →
      (retryGo (some gen) maxRetries attempt remaining).result = none ∧
      (retryGo (some gen) maxRetries attempt remaining).calls = k + 1 - attempt ∧
      (retryGo (some gen) maxRetries attempt remaining).errorNotes = [] ∧
      (retryGo (some gen) maxRetries attempt remaining).sleeps.length = k - attempt by
    have := h maxRetries 0 (by omega) (by omega)
    simpa [generate_with_retry] using this
  intro remaining
  induction remaining with
  | zero => intro attempt hsum hle; exfalso; omega
  | succ remaining ih =>
    intro attempt hsum hle
    by_cases hak : attempt = k
    · subst hak
      rw [retryGo_ok gen maxRetries attempt remaining s hgk, if_neg (by simp [hsit])]
      exact ⟨rfl, by show 1 = attempt + 1 - attempt; omega, rfl,
        by show (0 : Nat) = attempt - attempt; omega⟩
    · have haltk : attempt < k := by omega
      obtain ⟨e, hge⟩ := hfail attempt haltk
      have hlt : attempt + 1 < maxRetries := by omega
      obtain ⟨ihr, ihc, ihn, ihs⟩ := ih (attempt + 1) (by omega) (by omega)
      rw [retryGo_err_retry gen maxRetries attempt remaining e hge hlt]
      refine ⟨ihr, by simp only [ihc]; omega, ihn, ?_⟩
      simp only [List.length_cons, ihs]
      omega

/-- Witness for the amended C3: `k = 0`, `maxRetries = 3`, first response
non-iterable: one call, no sleeps, failure value, no error notification. -/
theorem nonIterable_returns_immediately_witness :
    (generate_with_retry (some genNonIter) 3).result = none ∧
    (generate_with_retry (some genNonIter) 3).calls = 0 + 1 ∧
    (generate_with_retry (some genNonIter) 3).errorNotes = [] ∧
    (generate_with_retry (some genNonIter) 3).sleeps.length = 0 :=
  nonIterable_returns_immediately genNonIter 3 0 (by decide)
    (fun j hj => absurd hj (Nat.not_lt_zero j))
    ⟨⟨false, []⟩, rfl, rfl⟩

/-- Claim C9: calling the retry invoker with an absent (`None`) client returns
the failure value during the first attempt for every `maxRetries ≥ 1`: the
backend is never invoked, no backoff sleep occurs, the error notification
callback never fires, and exactly the one log line is emitted. -/
theorem none_client_immediate_failure (maxRetries : Nat) (hmax : 1 ≤ maxRetries) :
    (generate_with_retry none maxRetries).result = none ∧
    (generate_with_retry none maxRetries).calls = 0 ∧
    (generate_with_retry none maxRetries).sleeps = [] ∧
    (generate_with_retry none maxRetries).errorNotes = [] ∧
    (generate_with_retry none maxRetries).logs = [chars "Error: LLM client is None"] := by
  obtain ⟨m, rfl⟩ : ∃ m, maxRetries = m + 1 := ⟨maxRetries - 1, by omega⟩
  exact ⟨rfl, rfl, rfl, rfl, rfl⟩

/-- Witness for C9 at `maxRetries = 3`. -/
theorem none_client_immediate_failure_witness :
    (generate_with_retry none 3).result = none ∧
    (generate_with_retry none 3).calls = 0 ∧
    (generate_with_retry none 3).sleeps = [] ∧
    (generate_with_retry none 3).errorNotes = [] ∧
    (generate_with_retry none 3).logs = [chars "Error: LLM client is None"] :=
  none_client_immediate_failure 3 (by decide)

/-! ### Token stream draining loops (src/ans/backend/thread.py).

Each `for chunk in stream:` loop is embedded as a recursion over the chunk
list producing the accumulated text, the token count, and an explicit event
trace.  Token extraction is shared: dict chunks (`chunk['response']`) and
object chunks (`chunk.response`) both reduce to the optional response field,
and `if token:` skips `None` and the empty string. -/

/-- Observable event inside a stream-draining loop. -/
inductive DrainEvent
  | pauseCheck
  | append (tok : List Char)
  | emitText (acc : List Char)
  | logTokens (count : Nat)
deriving DecidableEq

/-- Token extracted from a chunk, `none` when the chunk carries no usable
response (`if token:` is false for `None` and for the empty string). -/
def extractToken (c : Chunk) : Option (List Char) :=
  match c.response with
  | some t => if t = [] then none else some t
  | none => none

/-- Synopsis generation loop (`run`, lines 330-361): `wait_while_paused()` per
chunk, then append, emit the accumulated text, and log every 100 tokens. -/
def synopsisDrainGo : List Char → Nat → List Chunk → List Char × Nat × List DrainEvent
  | acc, cnt, [] => (acc, cnt, [])
  | acc, cnt, c :: rest =>
    match extractToken c with
    | some tok =>
      let acc' := acc ++ tok
      let cnt' := cnt + 1
      let r := synopsisDrainGo acc' cnt' rest
      (r.1, r.2.1,
        ([DrainEvent.pauseCheck, DrainEvent.append tok, DrainEvent.emitText acc'] ++
          (if cnt' % 100 = 0 then [DrainEvent.logTokens cnt'] else [])) ++ r.2.2)
    | none =>
      let r := synopsisDrainGo acc cnt rest
      (r.1, r.2.1, DrainEvent.pauseCheck :: r.2.2)

/-- Synopsis drain over a fresh accumulator. -/
def synopsisDrain (chunks : List Chunk) : List Char × Nat × List DrainEvent :=
  synopsisDrainGo [] 0 chunks

/-- Synopsis refinement loop inside `run` (lines 401-424): `wait_while_paused()`
per chunk, append and log every 100 tokens, no per-token emission. -/
def refinementDrainGo : List Char → Nat → List Chunk → List Char × Nat × List DrainEvent
  | acc, cnt, [] => (acc, cnt, [])
  | acc, cnt, c :: rest =>
    match extractToken c with
    | some tok =>
      let acc' := acc ++ tok
      let cnt' := cnt + 1
      let r := refinementDrainGo acc' cnt' rest
      (r.1, r.2.1,
        ([DrainEvent.pauseCheck, DrainEvent.append tok] ++
          (if cnt' % 100 = 0 then [DrainEvent.logTokens cnt'] else [])) ++ r.2.2)
    | none =>
      let r := refinementDrainGo acc cnt rest
      (r.1, r.2.1, DrainEvent.pauseCheck :: r.2.2)

/-- Refinement drain over a fresh accumulator. -/
def refinementDrain (chunks : List Chunk) : List Char × Nat × List DrainEvent :=
  refinementDrainGo [] 0 chunks

/-- Outline generation loop (`generate_outline`, lines 701-727): same shape as
the synopsis loop (pause check, append, per-token emit, log every 100). -/
def outlineDrainGo : List Char → Nat → List Chunk → List Char × Nat × List DrainEvent
  | acc, cnt, [] => (acc, cnt, [])
  | acc, cnt, c :: rest =>
    match extractToken c with
    | some tok =>
      let acc' := acc ++ tok
      let cnt' := cnt + 1
      let r := outlineDrainGo acc' cnt' rest
      (r.1, r.2.1,
        ([DrainEvent.pauseCheck, DrainEvent.append tok, DrainEvent.emitText acc'] ++
          (if cnt' % 100 = 0 then [DrainEvent.logTokens cnt'] else [])) ++ r.2.2)
    | none =>
      let r := outlineDrainGo acc cnt rest
      (r.1, r.2.1, DrainEvent.pauseCheck :: r.2.2)

/-- Outline drain over a fresh accumulator. -/
def outlineDrain (chunks : List Chunk) : List Char × Nat × List DrainEvent :=
  outlineDrainGo [] 0 chunks

/-- Character generation loop (`generate_characters`, lines 945-971): pause
check, append, per-token emit, log every 100. -/
def charactersDrainGo : List Char → Nat → List Chunk → List Char × Nat × List DrainEvent
  | acc, cnt, [] => (acc, cnt, [])
  | acc, cnt, c :: rest =>
    match extractToken c with
    | some tok =>
      let acc' := acc ++ tok
      let cnt' := cnt + 1
      let r := charactersDrainGo acc' cnt' rest
      (r.1, r.2.1,
        ([DrainEvent.pauseCheck, DrainEvent.append tok, DrainEvent.emitText acc'] ++
          (if cnt' % 100 = 0 then [DrainEvent.logTokens cnt'] else [])) ++ r.2.2)
    | none =>
      let r := charactersDrainGo acc cnt rest
      (r.1, r.2.1, DrainEvent.pauseCheck :: r.2.2)

/-- Characters drain over a fresh accumulator. -/
def charactersDrain (chunks : List Chunk) : List Char × Nat × List DrainEvent :=
  charactersDrainGo [] 0 chunks

/-- World generation loop (`generate_world`, lines 1172-1199): pause check,
append, per-token emit, log every 100. -/
def worldDrainGo : List Char → Nat → List Chunk → List Char × Nat × List DrainEvent
  | acc, cnt, [] => (acc, cnt, [])
  | acc, cnt, c :: rest =>
    match extractToken c with
    | some tok =>
      let acc' := acc ++ tok
      let cnt' := cnt + 1
      let r := worldDrainGo acc' cnt' rest
      (r.1, r.2.1,
        ([DrainEvent.pauseCheck, DrainEvent.append tok, DrainEvent.emitText acc'] ++
          (if cnt' % 100 = 0 then [DrainEvent.logTokens cnt'] else [])) ++ r.2.2)
    | none =>
      let r := worldDrainGo acc cnt rest
      (r.1, r.2.1, DrainEvent.pauseCheck :: r.2.2)

/-- World drain over a fresh accumulator. -/
def worldDrain (chunks : List Chunk) : List Char × Nat × List DrainEvent :=
  worldDrainGo [] 0 chunks

/-- Section-summary loop inside `approve_section` (lines 1844-1856): appends
tokens and counts them; performs NO pause check, NO emission and NO logging. -/
def summaryDrainGo : List Char → Nat → List Chunk → List Char × Nat × List DrainEvent
  | acc, cnt, [] => (acc, cnt, [])
  | acc, cnt, c :: rest =>
    match extractToken c with
    | some tok =>
      let r := summaryDrainGo (acc ++ tok) (cnt + 1) rest
      (r.1, r.2.1, DrainEvent.append tok :: r.2.2)
    | none => summaryDrainGo acc cnt rest

/-- Summary drain over a fresh accumulator. -/
def summaryDrain (chunks : List Chunk) : List Char × Nat × List DrainEvent :=
  summaryDrainGo [] 0 chunks

/-- Context-extraction loop inside `approve_section` (lines 1889-1901): same
shape as the summary loop — no pause check. -/
def contextDrainGo : List Char → Nat → List Chunk → List Char × Nat × List DrainEvent
  | acc, cnt, [] => (acc, cnt, [])
  | acc, cnt, c :: rest =>
    match extractToken c with
    | some tok =>
      let r := contextDrainGo (acc ++ tok) (cnt + 1) rest
      (r.1, r.2.1, DrainEvent.append tok :: r.2.2)
    | none => contextDrainGo acc cnt rest

/-- Context drain over a fresh accumulator. -/
def contextDrain (chunks : List Chunk) : List Char × Nat × List DrainEvent :=
  contextDrainGo [] 0 chunks

/-- Final consistency-check loop (`perform_final_consistency_check`, lines
2091-2103): appends and counts; no pause check. -/
def consistencyDrainGo : List Char → Nat → List Chunk → List Char × Nat × List DrainEvent
  | acc, cnt, [] => (acc, cnt, [])
  | acc, cnt, c :: rest =>
    match extractToken c with
    | some tok =>
      let r := consistencyDrainGo (acc ++ tok) (cnt + 1) rest
      (r.1, r.2.1, DrainEvent.append tok :: r.2.2)
    | none => consistencyDrainGo acc cnt rest

/-- Consistency drain over a fresh accumulator. -/
def consistencyDrain (chunks : List Chunk) : List Char × Nat × List DrainEvent :=
  consistencyDrainGo [] 0 chunks

/-- Research-notes loop (`start_chapter_research_loop`, lines 2225-2244):
appends, counts and logs every 100 tokens; no pause check. -/
def researchDrainGo : List Char → Nat → List Chunk → List Char × Nat × List DrainEvent
  | acc, cnt, [] => (acc, cnt, [])
  | acc, cnt, c :: rest =>
    match extractToken c with
    | some tok =>
      let cnt' := cnt + 1
      let r := researchDrainGo (acc ++ tok) cnt' rest
      (r.1, r.2.1,
        (DrainEvent.append tok ::
          (if cnt' % 100 = 0 then [DrainEvent.logTokens cnt'] else [])) ++ r.2.2)
    | none => researchDrainGo acc cnt rest

/-- Research drain over a fresh accumulator. -/
def researchDrain (chunks : List Chunk) : List Char × Nat × List DrainEvent :=
  researchDrainGo [] 0 chunks

/-- Section draft loop inside the chapter loop (lines 2328-2347): appends,
counts and logs every 100 tokens; no pause check.  The polish loop (2403-2422)
and the vocabulary-enhancement loop (2482-2501) have the identical shape. -/
def draftDrainGo : List Char → Nat → List Chunk → List Char × Nat × List DrainEvent
  | acc, cnt, [] => (acc, cnt, [])
  | acc, cnt, c :: rest =>
    match extractToken c with
    | some tok =>
      let cnt' := cnt + 1
      let r := draftDrainGo (acc ++ tok) cnt' rest
      (r.1, r.2.1,
        (DrainEvent.append tok ::
          (if cnt' % 100 = 0 then [DrainEvent.logTokens cnt'] else [])) ++ r.2.2)
    | none => draftDrainGo acc cnt rest

/-- Draft drain over a fresh accumulator. -/
def draftDrain (chunks : List Chunk) : List Char × Nat × List DrainEvent :=
  draftDrainGo [] 0 chunks

/-- Pause-check recogniser on drain events. -/
def isPauseCheck : DrainEvent → Bool
  | DrainEvent.pauseCheck => true
  | _ => false

/-- Append recogniser on drain events. -/
def isAppend : DrainEvent → Bool
  | DrainEvent.append _ => true
  | _ => false

/-- Number of pause-gate suspension checks in a trace. -/
def countPauseChecks (evs : List DrainEvent) : Nat := evs.countP isPauseCheck

/-- Number of token-content appends in a trace. -/
def countAppends (evs : List DrainEvent) : Nat := evs.countP isAppend

/-- Discipline "every appended token was preceded by its own pause check":
walking the trace with a budget of unconsumed checks, each append must find a
positive budget and consumes one check. -/
def checkLeads : Nat → List DrainEvent → Bool
  | _, [] => true
  | budget, DrainEvent.pauseCheck :: rest => checkLeads (budget + 1) rest
  | budget, DrainEvent.append _ :: rest =>
    decide (budget ≠ 0) && checkLeads (budget - 1) rest
  | budget, DrainEvent.emitText _ :: rest => checkLeads budget rest
  | budget, DrainEvent.logTokens _ :: rest => checkLeads budget rest

/-! ### Synopsis loading and stage generation (src/ans/backend/thread.py). -/

/-- Embedding of `load_synopsis_from_project` (lines 64-86): prefer the
stripped content of `refined_synopsis.txt` when the file exists and is
non-empty after stripping; otherwise fall back to the stripped content of
`synopsis.txt` (empty when that file is absent too). -/
def load_synopsis_from_project (refinedFile initialFile : Option (List Char)) :
    List Char :=
  match refinedFile with
  | some r =>
    if pyStrip r ≠ [] then pyStrip r
    else
      match initialFile with
      | some s => pyStrip s
      | none => []
  | none =>
    match initialFile with
    | some s => pyStrip s
    | none => []

/-- Outline generation prompt (`generate_outline`, lines 674-681), with the
synopsis spliced into the context. -/
def outlinePrompt (synopsis tone : List Char) (softTarget : Nat) : List Char :=
  chars "Create a detailed outline for a novel with soft target " ++
    natToChars softTarget ++
    chars " words based on this synopsis: \"" ++ synopsis ++
    (chars "\". Include: 25 chapters with titles, 100–200-word summaries per chapter, key events, character developments, dynamic chapter lengths (5000–15000 words) based on pacing. Tone: \"" ++
      tone ++
      chars "\". Ensure no contradictions. Return ONLY the outline structure, no explanation or preamble.")

/-- One stage entry of the Progress Record (`progress.json`):
`{stage: {status, timestamp}}`. -/
structure StageEntry where
  status : String
  timestamp : String
deriving DecidableEq

/-- Slice of the durable project store touched by character/world generation. -/
structure ProjectFiles where
  outline : Option (List Char)
  characters : Option (List Char)
  world : Option (List Char)
  progress : List (String × StageEntry)
deriving DecidableEq

/-- External effect performed by a stage operation.  Per-token emissions live
in the drain-event traces; `emitSignal` is the final emission. -/
inductive Effect
  | logLine (msg : List Char)
  | generateCall (prompt : List Char)
  | emitSignal (text : List Char)
deriving DecidableEq

/-- Character generation prompt (`generate_characters`, lines 919-925). -/
def charactersPrompt (outlineContent synopsis : List Char) : List Char :=
  chars "Generate detailed profiles for main characters in this outline: \"" ++
    outlineContent ++
    (chars "\". Include: Name, Age, Background, Traits, Arc, Relationships. Format as JSON array of character objects. Ensure consistency with synopsis: \"" ++
      synopsis ++ chars "\". Return ONLY the JSON array, no explanation or preamble.")

/-- World-building prompt (`generate_world`, lines 1146-1152). -/
def worldPrompt (outlineContent : List Char) : List Char :=
  chars "Generate world-building details for this outline: \"" ++ outlineContent ++
    chars "\". Include: Tech, Culture, Geography, History, Rules. Format as JSON dict. Align with tone and characters. Return ONLY the JSON dict, no explanation or preamble."

/-- Content written to `characters.txt` on success (lines 975-979). -/
def charactersFileText (json : List Char) : List Char :=
  chars "=== MAIN CHARACTERS (JSON) ===\n\n" ++ json ++
    chars "\n\n=== END CHARACTERS ===\n"

/-- Content written to `world.txt` on success (lines 1202-1206). -/
def worldFileText (json : List Char) : List Char :=
  chars "=== WORLD BUILDING (JSON) ===\n\n" ++ json ++ chars "\n\n=== END WORLD ===\n"

/-- Embedding of `generate_characters` (lines 878-994).  `synopsisMem` is
`self.synopsis` on entry; `stream` is the value `_generate_with_retry`
returned (`none` = all retries failed); `now` is the timestamp used for the
progress entry.  The read error message stands for
`f"Error reading outline: {e}"`. -/
def generate_characters (fs : ProjectFiles) (synopsisMem : List Char)
    (refinedFile initialFile : Option (List Char))
    (stream : Option (List Chunk)) (now : String) : ProjectFiles × List Effect :=
  match fs.outline with
  | none =>
    (fs, [Effect.logLine (chars "Error reading outline: file not found")])
  | some outlineContent =>
    if pyStrip outlineContent = [] then
      (fs, [Effect.logLine (chars "Error: Outline is empty")])
    else
      let synopsis :=
        if synopsisMem = [] then load_synopsis_from_project refinedFile initialFile
        else synopsisMem
      if synopsis = [] then
        (fs, [Effect.logLine
          (chars "Error: No synopsis available for character generation")])
      else
        let prompt := charactersPrompt outlineContent synopsis
        match stream with
        | none =>
          (fs, [Effect.generateCall prompt,
                Effect.logLine (chars "Failed to generate characters after retries")])
        | some chunks =>
          let charactersJson := (charactersDrain chunks).1
          if charactersJson = [] then
            (fs, [Effect.generateCall prompt,
                  Effect.logLine (chars "Warning: No character data generated")])
          else
            ({ fs with
                characters := some (charactersFileText charactersJson),
                progress := dictInsert fs.progress "characters"
                  ⟨"ready_for_approval", now⟩ },
             [Effect.generateCall prompt, Effect.emitSignal charactersJson])

/-- Embedding of `generate_world` (lines 1114-1221): reads the outline, aborts
on a read error or empty outline, otherwise generates, and on non-empty output
writes `world.txt` and saves the progress entry. -/
def generate_world (fs : ProjectFiles) (stream : Option (List Chunk))
    (now : String) : ProjectFiles × List Effect :=
  match fs.outline with
  | none =>
    (fs, [Effect.logLine (chars "Error reading outline: file not found")])
  | some outlineContent =>
    if pyStrip outlineContent = [] then
      (fs, [Effect.logLine (chars "Error: Outline is empty")])
    else
      let prompt := worldPrompt outlineContent
      match stream with
      | none =>
        (fs, [Effect.generateCall prompt,
              Effect.logLine (chars "Failed to generate world after retries")])
      | some chunks =>
        let worldJson := (worldDrain chunks).1
        if worldJson = [] then
          (fs, [Effect.generateCall prompt,
                Effect.logLine (chars "Warning: No world data generated")])
        else
          ({ fs with
              world := some (worldFileText worldJson),
              progress := dictInsert fs.progress "world"
                ⟨"ready_for_approval", now⟩ },
           [Effect.generateCall prompt, Effect.emitSignal worldJson])

/-! ### Progress Record persistence (src/ans/backend/project.py, lines 228-261). -/

/-- Embedding of `ProjectManager.save_progress`: load the existing progress
mapping (`none` = missing file or malformed JSON, defaulting to the empty
mapping), set the entry for the named stage, and write the merged mapping
back. -/
def save_progress (existing : Option (List (String × StageEntry)))
    (stage status timestamp : String) : List (String × StageEntry) :=
  dictInsert (existing.getD []) stage ⟨status, timestamp⟩

/-- Lookup after a dict assignment: the assigned key maps to the new value,
every other key is unchanged. -/
theorem dictLookup_dictInsert {κ α : Type} [DecidableEq κ]
    (m : List (κ × α)) (k : κ) (v : α) (key : κ) :
    dictLookup (dictInsert m k v) key =
      if k = key then some v else dictLookup m key := by
  induction m with
  | nil =>
    by_cases h : k = key <;> simp [dictInsert, dictLookup, h]
  | cons kv rest ih =>
    obtain ⟨k', v'⟩ := kv
    by_cases hk : k' = k
    · subst hk
      by_cases hkey : k' = key <;> simp [dictInsert, dictLookup, hkey]
    · by_cases hkey : k' = key
      · have hne : ¬ k = key := fun he => hk (hkey.trans he.symm)
        have hne' : ¬ key = k := fun he => hne he.symm
        simp [dictInsert, dictLookup, hk, hkey, hne, hne']
      · simp [dictInsert, dictLookup, hk, hkey, ih]

/-- Claim C8: the synopsis loader prefers the refined artifact — when
`refined_synopsis.txt` is present with non-empty stripped content, it is
loaded (and hence spliced into the outline prompt); the initial synopsis is
used only when the refined file is absent or strips to empty. -/
theorem refined_synopsis_preferred (refined initial tone : List Char)
    (target : Nat) (href : pyStrip refined ≠ []) :
    load_synopsis_from_project (some refined) (some initial) = pyStrip refined ∧
    pyStrip refined <:+:
      outlinePrompt (load_synopsis_from_project (some refined) (some initial))
        tone target ∧
    load_synopsis_from_project none (some initial) = pyStrip initial ∧
    (∀ r, pyStrip r = [] →
      load_synopsis_from_project (some r) (some initial) = pyStrip initial) := by
  have h1 : load_synopsis_from_project (some refined) (some initial) =
      pyStrip refined := by
    simp [load_synopsis_from_project, href]
  refine ⟨h1, ?_, rfl, ?_⟩
  · rw [h1]
    exact ⟨chars "Create a detailed outline for a novel with soft target " ++
        natToChars target ++ chars " words based on this synopsis: \"",
      chars "\". Include: 25 chapters with titles, 100–200-word summaries per chapter, key events, character developments, dynamic chapter lengths (5000–15000 words) based on pacing. Tone: \"" ++
        tone ++
        chars "\". Ensure no contradictions. Return ONLY the outline structure, no explanation or preamble.",
      by simp [outlinePrompt, List.append_assoc]⟩
  · intro r hr
    simp [load_synopsis_from_project, hr]

/-- Witness for C8 with a concrete refined and initial synopsis. -/
theorem refined_synopsis_preferred_witness :
    load_synopsis_from_project (some (chars " B ")) (some (chars "A")) =
      pyStrip (chars " B ") ∧
    pyStrip (chars " B ") <:+:
      outlinePrompt (load_synopsis_from_project (some (chars " B ")) (some (chars "A")))
        (chars "dark") 1000 ∧
    load_synopsis_from_project none (some (chars "A")) = pyStrip (chars "A") ∧
    (∀ r, pyStrip r = [] →
      load_synopsis_from_project (some r) (some (chars "A")) = pyStrip (chars "A")) :=
  refined_synopsis_preferred (chars " B ") (chars "A") (chars "dark") 1000 (by decide)

/-- Claim C7: when the outline prerequisite is missing or strips to empty,
both `generate_characters` and `generate_world` log a single error line and
return at once: no generation call is issued, no artifact file is written or
overwritten, and the Progress Record is untouched, so the stage can be retried
from the same entry point. -/
theorem missing_prerequisite_aborts_stage (fs : ProjectFiles)
    (synopsisMem : List Char) (refinedFile initialFile : Option (List Char))
    (stream : Option (List Chunk)) (now : String)
    (h : fs.outline = none ∨ ∃ o, fs.outline = some o ∧ pyStrip o = []) :
    (generate_characters fs synopsisMem refinedFile initialFile stream now).1 = fs ∧
    (∃ m, (generate_characters fs synopsisMem refinedFile initialFile stream now).2 =
      [Effect.logLine m]) ∧
    (∀ p, Effect.generateCall p ∉
      (generate_characters fs synopsisMem refinedFile initialFile stream now).2) ∧
    (generate_characters fs synopsisMem refinedFile initialFile stream now).1.progress =
      fs.progress ∧
    (generate_world fs stream now).1 = fs ∧
    (∃ m, (generate_world fs stream now).2 = [Effect.logLine m]) ∧
    (∀ p, Effect.generateCall p ∉ (generate_world fs stream now).2) := by
  rcases h with h | ⟨o, ho, hs⟩
  · have hc : generate_characters fs synopsisMem refinedFile initialFile stream now =
        (fs, [Effect.logLine (chars "Error reading outline: file not found")]) := by
      simp [generate_characters, h]
    have hw : generate_world fs stream now =
        (fs, [Effect.logLine (chars "Error reading outline: file not found")]) := by
      simp [generate_world, h]
    rw [hc, hw]
    exact ⟨rfl, ⟨_, rfl⟩, by simp, rfl, rfl, ⟨_, rfl⟩, by simp⟩
  · have hc : generate_characters fs synopsisMem refinedFile initialFile stream now =
        (fs, [Effect.logLine (chars "Error: Outline is empty")]) := by
      simp [generate_characters, ho, hs]
    have hw : generate_world fs stream now =
        (fs, [Effect.logLine (chars "Error: Outline is empty")]) := by
      simp [generate_world, ho, hs]
    rw [hc, hw]
    exact ⟨rfl, ⟨_, rfl⟩, by simp, rfl, rfl, ⟨_, rfl⟩, by simp⟩

/-- Witness for C7: a project whose outline file exists but is whitespace. -/
theorem missing_prerequisite_aborts_stage_witness :
    (generate_characters ⟨some (chars "  "), none, none, []⟩ [] none none none "t").1 =
      ⟨some (chars "  "), none, none, []⟩ ∧
    (∃ m, (generate_characters ⟨some (chars "  "), none, none, []⟩ [] none none none "t").2 =
      [Effect.logLine m]) ∧
    (∀ p, Effect.generateCall p ∉
      (generate_characters ⟨some (chars "  "), none, none, []⟩ [] none none none "t").2) ∧
    (generate_characters ⟨some (chars "  "), none, none, []⟩ [] none none none "t").1.progress =
      ProjectFiles.progress ⟨some (chars "  "), none, none, []⟩ ∧
    (generate_world ⟨some (chars "  "), none, none, []⟩ none "t").1 =
      ⟨some (chars "  "), none, none, []⟩ ∧
    (∃ m, (generate_world ⟨some (chars "  "), none, none, []⟩ none "t").2 =
      [Effect.logLine m]) ∧
    (∀ p, Effect.generateCall p ∉
      (generate_world ⟨some (chars "  "), none, none, []⟩ none "t").2) :=
  missing_prerequisite_aborts_stage ⟨some (chars "  "), none, none, []⟩ [] none none
    none "t" (Or.inr ⟨chars "  ", rfl, by decide⟩)

/-- Claim C10: `save_progress` merges one stage entry into the existing
progress mapping (empty when the file is missing or malformed): every other
stage keeps its status and timestamp, and the named stage maps to the new
status with the fresh timestamp. -/
theorem save_progress_preserves_other_stages
    (existing : Option (List (String × StageEntry)))
    (stage status timestamp other : String) (h : other ≠ stage) :
    dictLookup (save_progress existing stage status timestamp) other =
      dictLookup (existing.getD []) other ∧
    dictLookup (save_progress existing stage status timestamp) stage =
      some ⟨status, timestamp⟩ := by
  have hne : ¬ stage = other := fun he => h he.symm
  constructor
  · rw [save_progress, dictLookup_dictInsert]
    simp [hne]
  · rw [save_progress, dictLookup_dictInsert]
    simp

/-- Witness for C10: saving the characters stage leaves the outline entry
untouched. -/
theorem save_progress_preserves_other_stages_witness :
    dictLookup
      (save_progress (some [("outline", ⟨"approved", "t1"⟩)])
        "characters" "ready_for_approval" "t2") "outline" =
      dictLookup ((some [("outline", (⟨"approved", "t1"⟩ : StageEntry))]).getD [])
        "outline" ∧
    dictLookup
      (save_progress (some [("outline", ⟨"approved", "t1"⟩)])
        "characters" "ready_for_approval" "t2") "characters" =
      some ⟨"ready_for_approval", "t2"⟩ :=
  save_progress_preserves_other_stages (some [("outline", ⟨"approved", "t1"⟩)])
    "characters" "ready_for_approval" "t2" "outline" (by decide)

/-- Pause checks in the synopsis loop: one per received chunk. -/
theorem synopsisDrainGo_pauseChecks (cs : List Chunk) :
    ∀ acc cnt, countPauseChecks (synopsisDrainGo acc cnt cs).2.2 = cs.length := by
  induction cs with
  | nil => intro acc cnt; rfl
  | cons c rest ih =>
    intro acc cnt
    cases hec : extractToken c with
    | some tok =>
      have ihx := ih (acc ++ tok) (cnt + 1)
      simp only [countPauseChecks] at ihx ⊢
      by_cases hl : (cnt + 1) % 100 = 0 <;>
        simp [synopsisDrainGo, hec, List.countP_append,
          List.countP_cons, isPauseCheck, hl, ihx]
    | none =>
      have ihx := ih acc cnt
      simp only [countPauseChecks] at ihx ⊢
      simp [synopsisDrainGo, hec, List.countP_cons, isPauseCheck, ihx]

/-- Check-before-append discipline of the synopsis loop. -/
theorem synopsisDrainGo_checkLeads (cs : List Chunk) :
    ∀ acc cnt b, checkLeads b (synopsisDrainGo acc cnt cs).2.2 = true := by
  induction cs with
  | nil => intro acc cnt b; rfl
  | cons c rest ih =>
    intro acc cnt b
    cases hec : extractToken c with
    | some tok =>
      by_cases hl : (cnt + 1) % 100 = 0 <;>
        simp [synopsisDrainGo, hec, checkLeads, hl, ih]
    | none => simp [synopsisDrainGo, hec, checkLeads, ih]

/-- Pause checks in the run-refinement loop: one per received chunk. -/
theorem refinementDrainGo_pauseChecks (cs : List Chunk) :
    ∀ acc cnt, countPauseChecks (refinementDrainGo acc cnt cs).2.2 = cs.length := by
  induction cs with
  | nil => intro acc cnt; rfl
  | cons c rest ih =>
    intro acc cnt
    cases hec : extractToken c with
    | some tok =>
      have ihx := ih (acc ++ tok) (cnt + 1)
      simp only [countPauseChecks] at ihx ⊢
      by_cases hl : (cnt + 1) % 100 = 0 <;>
        simp [refinementDrainGo, hec, List.countP_append,
          List.countP_cons, isPauseCheck, hl, ihx]
    | none =>
      have ihx := ih acc cnt
      simp only [countPauseChecks] at ihx ⊢
      simp [refinementDrainGo, hec, List.countP_cons, isPauseCheck, ihx]

/-- Check-before-append discipline of the run-refinement loop. -/
theorem refinementDrainGo_checkLeads (cs : List Chunk) :
    ∀ acc cnt b, checkLeads b (refinementDrainGo acc cnt cs).2.2 = true := by
  induction cs with
  | nil => intro acc cnt b; rfl
  | cons c rest ih =>
    intro acc cnt b
    cases hec : extractToken c with
    | some tok =>
      by_cases hl : (cnt + 1) % 100 = 0 <;>
        simp [refinementDrainGo, hec, checkLeads, hl, ih]
    | none => simp [refinementDrainGo, hec, checkLeads, ih]

/-- Pause checks in the outline loop: one per received chunk. -/
theorem outlineDrainGo_pauseChecks (cs : List Chunk) :
    ∀ acc cnt, countPauseChecks (outlineDrainGo acc cnt cs).2.2 = cs.length := by
  induction cs with
  | nil => intro acc cnt; rfl
  | cons c rest ih =>
    intro acc cnt
    cases hec : extractToken c with
    | some tok =>
      have ihx := ih (acc ++ tok) (cnt + 1)
      simp only [countPauseChecks] at ihx ⊢
      by_cases hl : (cnt + 1) % 100 = 0 <;>
        simp [outlineDrainGo, hec, List.countP_append,
          List.countP_cons, isPauseCheck, hl, ihx]
    | none =>
      have ihx := ih acc cnt
      simp only [countPauseChecks] at ihx ⊢
      simp [outlineDrainGo, hec, List.countP_cons, isPauseCheck, ihx]

/-- Check-before-append discipline of the outline loop. -/
theorem outlineDrainGo_checkLeads (cs : List Chunk) :
    ∀ acc cnt b, checkLeads b (outlineDrainGo acc cnt cs).2.2 = true := by
  induction cs with
  | nil => intro acc cnt b; rfl
  | cons c rest ih =>
    intro acc cnt b
    cases hec : extractToken c with
    | some tok =>
      by_cases hl : (cnt + 1) % 100 = 0 <;>
        simp [outlineDrainGo, hec, checkLeads, hl, ih]
    | none => simp [outlineDrainGo, hec, checkLeads, ih]

/-- Pause checks in the characters loop: one per received chunk. -/
theorem charactersDrainGo_pauseChecks (cs : List Chunk) :
    ∀ acc cnt, countPauseChecks (charactersDrainGo acc cnt cs).2.2 = cs.length := by
  induction cs with
  | nil => intro acc cnt; rfl
  | cons c rest ih =>
    intro acc cnt
    cases hec : extractToken c with
    | some tok =>
      have ihx := ih (acc ++ tok) (cnt + 1)
      simp only [countPauseChecks] at ihx ⊢
      by_cases hl : (cnt + 1) % 100 = 0 <;>
        simp [charactersDrainGo, hec, List.countP_append,
          List.countP_cons, isPauseCheck, hl, ihx]
    | none =>
      have ihx := ih acc cnt
      simp only [countPauseChecks] at ihx ⊢
      simp [charactersDrainGo, hec, List.countP_cons, isPauseCheck, ihx]

/-- Check-before-append discipline of the characters loop. -/
theorem charactersDrainGo_checkLeads (cs : List Chunk) :
    ∀ acc cnt b, checkLeads b (charactersDrainGo acc cnt cs).2.2 = true := by
  induction cs with
  | nil => intro acc cnt b; rfl
  | cons c rest ih =>
    intro acc cnt b
    cases hec : extractToken c with
    | some tok =>
      by_cases hl : (cnt + 1) % 100 = 0 <;>
        simp [charactersDrainGo, hec, checkLeads, hl, ih]
    | none => simp [charactersDrainGo, hec, checkLeads, ih]

/-- Pause checks in the world loop: one per received chunk. -/
theorem worldDrainGo_pauseChecks (cs : List Chunk) :
    ∀ acc cnt, countPauseChecks (worldDrainGo acc cnt cs).2.2 = cs.length := by
  induction cs with
  | nil => intro acc cnt; rfl
  | cons c rest ih =>
    intro acc cnt
    cases hec : extractToken c with
    | some tok =>
      have ihx := ih (acc ++ tok) (cnt + 1)
      simp only [countPauseChecks] at ihx ⊢
      by_cases hl : (cnt + 1) % 100 = 0 <;>
        simp [worldDrainGo, hec, List.countP_append,
          List.countP_cons, isPauseCheck, hl, ihx]
    | none =>
      have ihx := ih acc cnt
      simp only [countPauseChecks] at ihx ⊢
      simp [worldDrainGo, hec, List.countP_cons, isPauseCheck, ihx]

/-- Check-before-append discipline of the world loop. -/
theorem worldDrainGo_checkLeads (cs : List Chunk) :
    ∀ acc cnt b, checkLeads b (worldDrainGo acc cnt cs).2.2 = true := by
  induction cs with
  | nil => intro acc cnt b; rfl
  | cons c rest ih =>
    intro acc cnt b
    cases hec : extractToken c with
    | some tok =>
      by_cases hl : (cnt + 1) % 100 = 0 <;>
        simp [worldDrainGo, hec, checkLeads, hl, ih]
    | none => simp [worldDrainGo, hec, checkLeads, ih]

/-- The summary loop performs no pause check at all. -/
theorem summaryDrainGo_noPauseChecks (cs : List Chunk) :
    ∀ acc cnt, countPauseChecks (summaryDrainGo acc cnt cs).2.2 = 0 := by
  induction cs with
  | nil => intro acc cnt; rfl
  | cons c rest ih =>
    intro acc cnt
    cases hec : extractToken c with
    | some tok =>
      have ihx := ih (acc ++ tok) (cnt + 1)
      simp only [countPauseChecks] at ihx ⊢
      simp [summaryDrainGo, hec, List.countP_cons, isPauseCheck, ihx]
    | none =>
      have ihx := ih acc cnt
      simp only [countPauseChecks] at ihx ⊢
      simp [summaryDrainGo, hec, ihx]

/-- The context-extraction loop performs no pause check at all. -/
theorem contextDrainGo_noPauseChecks (cs : List Chunk) :
    ∀ acc cnt, countPauseChecks (contextDrainGo acc cnt cs).2.2 = 0 := by
  induction cs with
  | nil => intro acc cnt; rfl
  | cons c rest ih =>
    intro acc cnt
    cases hec : extractToken c with
    | some tok =>
      have ihx := ih (acc ++ tok) (cnt + 1)
      simp only [countPauseChecks] at ihx ⊢
      simp [contextDrainGo, hec, List.countP_cons, isPauseCheck, ihx]
    | none =>
      have ihx := ih acc cnt
      simp only [countPauseChecks] at ihx ⊢
      simp [contextDrainGo, hec, ihx]

/-- The consistency-check loop performs no pause check at all. -/
theorem consistencyDrainGo_noPauseChecks (cs : List Chunk) :
    ∀ acc cnt, countPauseChecks (consistencyDrainGo acc cnt cs).2.2 = 0 := by
  induction cs with
  | nil => intro acc cnt; rfl
  | cons c rest ih =>
    intro acc cnt
    cases hec : extractToken c with
    | some tok =>
      have ihx := ih (acc ++ tok) (cnt + 1)
      simp only [countPauseChecks] at ihx ⊢
      simp [consistencyDrainGo, hec, List.countP_cons, isPauseCheck, ihx]
    | none =>
      have ihx := ih acc cnt
      simp only [countPauseChecks] at ihx ⊢
      simp [consistencyDrainGo, hec, ihx]

/-- The research-notes loop performs no pause check at all. -/
theorem researchDrainGo_noPauseChecks (cs : List Chunk) :
    ∀ acc cnt, countPauseChecks (researchDrainGo acc cnt cs).2.2 = 0 := by
  induction cs with
  | nil => intro acc cnt; rfl
  | cons c rest ih =>
    intro acc cnt
    cases hec : extractToken c with
    | some tok =>
      have ihx := ih (acc ++ tok) (cnt + 1)
      simp only [countPauseChecks] at ihx ⊢
      by_cases hl : (cnt + 1) % 100 = 0 <;>
        simp [researchDrainGo, hec, List.countP_append,
          List.countP_cons, isPauseCheck, hl, ihx]
    | none =>
      have ihx := ih acc cnt
      simp only [countPauseChecks] at ihx ⊢
      simp [researchDrainGo, hec, ihx]

/-- The section-draft loop performs no pause check at all. -/
theorem draftDrainGo_noPauseChecks (cs : List Chunk) :
    ∀ acc cnt, countPauseChecks (draftDrainGo acc cnt cs).2.2 = 0 := by
  induction cs with
  | nil => intro acc cnt; rfl
  | cons c rest ih =>
    intro acc cnt
    cases hec : extractToken c with
    | some tok =>
      have ihx := ih (acc ++ tok) (cnt + 1)
      simp only [countPauseChecks] at ihx ⊢
      by_cases hl : (cnt + 1) % 100 = 0 <;>
        simp [draftDrainGo, hec, List.countP_append,
          List.countP_cons, isPauseCheck, hl, ihx]
    | none =>
      have ihx := ih acc cnt
      simp only [countPauseChecks] at ihx ⊢
      simp [draftDrainGo, hec, ihx]

/-- Counterexample for C4: the summary drain loop of `approve_section`
processes a received token (appending its content) without ever invoking the
pause gate's suspension check — zero checks against one append, so the
check-before-append discipline fails. -/
theorem summary_loop_lacks_pause_check_counterexample :
    countPauseChecks (summaryDrain [⟨some (chars "hi")⟩]).2.2 = 0 ∧
    countAppends (summaryDrain [⟨some (chars "hi")⟩]).2.2 = 1 ∧
    checkLeads 0 (summaryDrain [⟨some (chars "hi")⟩]).2.2 = false := by
  decide

/-- Claim C4 (amended): the suspension check is invoked once per received
token, before that token's content is appended, in the stage generation and
refinement drain loops (synopsis, run-refinement, outline, characters, world —
the timeline loop at line 1407 and the feedback-refinement loops have the same
shape); but the drain loops of section approval (summary, context extraction),
the final consistency check, and the chapter research loop (research notes,
drafts — likewise polish and enhancement) perform no suspension check at
all. -/
theorem pause_gate_checked_per_token_only_in_stage_loops :
    (∀ cs : List Chunk,
      countPauseChecks (synopsisDrain cs).2.2 = cs.length ∧
      checkLeads 0 (synopsisDrain cs).2.2 = true) ∧
    (∀ cs : List Chunk,
      countPauseChecks (refinementDrain cs).2.2 = cs.length ∧
      checkLeads 0 (refinementDrain cs).2.2 = true) ∧
    (∀ cs : List Chunk,
      countPauseChecks (outlineDrain cs).2.2 = cs.length ∧
      checkLeads 0 (outlineDrain cs).2.2 = true) ∧
    (∀ cs : List Chunk,
      countPauseChecks (charactersDrain cs).2.2 = cs.length ∧
      checkLeads 0 (charactersDrain cs).2.2 = true) ∧
    (∀ cs : List Chunk,
      countPauseChecks (worldDrain cs).2.2 = cs.length ∧
      checkLeads 0 (worldDrain cs).2.2 = true) ∧
    (∀ cs : List Chunk, countPauseChecks (summaryDrain cs).2.2 = 0) ∧
    (∀ cs : List Chunk, countPauseChecks (contextDrain cs).2.2 = 0) ∧
    (∀ cs : List Chunk, countPauseChecks (consistencyDrain cs).2.2 = 0) ∧
    (∀ cs : List Chunk, countPauseChecks (researchDrain cs).2.2 = 0) ∧
    (∀ cs : List Chunk, countPauseChecks (draftDrain cs).2.2 = 0) :=
  ⟨fun cs => ⟨synopsisDrainGo_pauseChecks cs [] 0, synopsisDrainGo_checkLeads cs [] 0 0⟩,
   fun cs => ⟨refinementDrainGo_pauseChecks cs [] 0, refinementDrainGo_checkLeads cs [] 0 0⟩,
   fun cs => ⟨outlineDrainGo_pauseChecks cs [] 0, outlineDrainGo_checkLeads cs [] 0 0⟩,
   fun cs => ⟨charactersDrainGo_pauseChecks cs [] 0, charactersDrainGo_checkLeads cs [] 0 0⟩,
   fun cs => ⟨worldDrainGo_pauseChecks cs [] 0, worldDrainGo_checkLeads cs [] 0 0⟩,
   fun cs => summaryDrainGo_noPauseChecks cs [] 0,
   fun cs => contextDrainGo_noPauseChecks cs [] 0,
   fun cs => consistencyDrainGo_noPauseChecks cs [] 0,
   fun cs => researchDrainGo_noPauseChecks cs [] 0,
   fun cs => draftDrainGo_noPauseChecks cs [] 0⟩

/-! ### Story word count and progress percentage (`approve_section`,
src/ans/backend/thread.py lines 1812-1966).

`len(story_content.split())` counts maximal runs of non-whitespace;
`progress_percentage = min(100, story_word_count / soft_target * 100)` (0 when
the target is 0) is embedded over `ℚ`: float division and multiplication are
monotone and `min`/`int` are exact, so monotonicity and the 100-clamp carry
over to the float computation unchanged. -/

/-- Worker of Python `str.split()` with no separator: `cur` is the current
word collected in reverse. -/
def splitWsGo : List Char → List Char → List (List Char)
  | cur, [] => if cur = [] then [] else [cur.reverse]
  | cur, c :: rest =>
    if isPySpace c then
      if cur = [] then splitWsGo [] rest else cur.reverse :: splitWsGo [] rest
    else splitWsGo (c :: cur) rest

/-- Python `s.split()` — maximal runs of non-whitespace. -/
def pySplitWs (s : List Char) : List (List Char) := splitWsGo [] s

/-- Python `len(s.split())`. -/
def pyWordCount (s : List Char) : Nat := (pySplitWs s).length

/-- Progress percentage recomputed at section approval:
`(story_word_count / soft_target * 100) if soft_target > 0 else 0`, capped by
`min(100, …)`. -/
def progressPercentage (storyWordCount softTarget : Nat) : ℚ :=
  min 100
    (if 0 < softTarget then (storyWordCount : ℚ) / (softTarget : ℚ) * 100 else 0)

/-- Integer written into the Config Record: `int(progress_percentage)`; the
percentage is non-negative so truncation equals the floor. -/
def writtenProgress (storyWordCount softTarget : Nat) : ℤ :=
  ⌊progressPercentage storyWordCount softTarget⌋

/-- Chapter heading inserted before the first section of a chapter
(line 1815). -/
def chapterHeading (chapter : Nat) : List Char :=
  chars "\n\n=== CHAPTER " ++ natToChars chapter ++ chars " ===\n\n"

/-- Append performed on `story.txt` by one section approval (lines 1812-1822):
optional chapter heading, the buffer, and a newline unless the buffer already
ends with one. -/
def approveStoryAppend (story buffer : List Char) (isNewChapter : Bool)
    (chapter : Nat) : List Char :=
  story ++ (if isNewChapter then chapterHeading chapter else []) ++ buffer ++
    (if buffer.getLast? = some '\n' then [] else ['\n'])

/-- One section approval event: whether it opens a new chapter, the chapter
number used for the heading, and the approved buffer. -/
structure ApprovalStep where
  isNewChapter : Bool
  chapter : Nat
  buffer : List Char

/-- Progress percentages written to the Config Record by a sequence of
successive approvals starting from the given story content. -/
def progressValues (story : List Char) (softTarget : Nat) :
    List ApprovalStep → List ℤ
  | [] => []
  | a :: rest =>
    writtenProgress
        (pyWordCount (approveStoryAppend story a.buffer a.isNewChapter a.chapter))
        softTarget ::
      progressValues (approveStoryAppend story a.buffer a.isNewChapter a.chapter)
        softTarget rest

/-- Splitting with a non-empty current word yields at least one word. -/
theorem splitWsGo_length_pos (t : List Char) :
    ∀ cur, cur ≠ [] → 1 ≤ (splitWsGo cur t).length := by
  induction t with
  | nil => intro cur h; simp [splitWsGo, h]
  | cons c rest ih =>
    intro cur h
    by_cases hc : isPySpace c
    · simp [splitWsGo, hc, h]
    · have := ih (c :: cur) (by simp)
      simpa [splitWsGo, hc] using this

/-- Appending text never decreases the number of split words. -/
theorem splitWsGo_length_le_append (s : List Char) :
    ∀ cur t, (splitWsGo cur s).length ≤ (splitWsGo cur (s ++ t)).length := by
  induction s with
  | nil =>
    intro cur t
    by_cases h : cur = []
    · simp [splitWsGo, h]
    · simpa [splitWsGo, h] using splitWsGo_length_pos t cur h
  | cons c rest ih =>
    intro cur t
    by_cases hc : isPySpace c
    · by_cases h : cur = []
      · simpa [splitWsGo, hc, h] using ih [] t
      · simpa [splitWsGo, hc, h] using ih [] t
    · simpa [splitWsGo, hc] using ih (c :: cur) t

/-- Appending text never decreases the Python word count. -/
theorem pyWordCount_le_append (s t : List Char) :
    pyWordCount s ≤ pyWordCount (s ++ t) :=
  splitWsGo_length_le_append s [] t

/-- One section approval never decreases the story word count. -/
theorem pyWordCount_le_approve (story buffer : List Char) (inew : Bool)
    (ch : Nat) :
    pyWordCount story ≤
      pyWordCount (approveStoryAppend story buffer inew ch) := by
  unfold approveStoryAppend
  calc pyWordCount story
      ≤ pyWordCount (story ++ (if inew then chapterHeading ch else [])) :=
        pyWordCount_le_append _ _
    _ ≤ pyWordCount (story ++ (if inew then chapterHeading ch else []) ++ buffer) :=
        pyWordCount_le_append _ _
    _ ≤ _ := pyWordCount_le_append _ _

/-- The written progress value is monotone in the story word count. -/
theorem writtenProgress_mono (t : Nat) {a b : Nat} (hab : a ≤ b) :
    writtenProgress a t ≤ writtenProgress b t := by
  apply Int.floor_le_floor
  unfold progressPercentage
  by_cases ht : 0 < t
  · simp only [ht, if_pos]
    gcongr
  · simp [ht]

/-- The written progress value never exceeds 100. -/
theorem writtenProgress_le_100 (wc t : Nat) : writtenProgress wc t ≤ 100 := by
  have h : progressPercentage wc t ≤ 100 := min_le_left _ _
  calc ⌊progressPercentage wc t⌋ ≤ ⌊(100 : ℚ)⌋ := Int.floor_le_floor h
    _ = 100 := by norm_num

/-- The written progress values of the story prefixes form a non-decreasing
chain. -/
theorem progressValues_chain (softTarget : Nat) :
    ∀ (apps : List ApprovalStep) (story : List Char),
      List.Chain' (· ≤ ·)
        (writtenProgress (pyWordCount story) softTarget ::
          progressValues story softTarget apps) := by
  intro apps
  induction apps with
  | nil => intro story; simp [progressValues]
  | cons a rest ih =>
    intro story
    rw [progressValues, List.chain'_cons]
    exact ⟨writtenProgress_mono softTarget
        (pyWordCount_le_approve story a.buffer a.isNewChapter a.chapter),
      ih (approveStoryAppend story a.buffer a.isNewChapter a.chapter)⟩

/-- Every written progress value is at most 100. -/
theorem progressValues_le_100 (softTarget : Nat) :
    ∀ (apps : List ApprovalStep) (story : List Char),
      ∀ x ∈ progressValues story softTarget apps, x ≤ 100 := by
  intro apps
  induction apps with
  | nil => intro story x hx; simp [progressValues] at hx
  | cons a rest ih =>
    intro story x hx
    rw [progressValues] at hx
    rcases List.mem_cons.mp hx with h | h
    · subst h; exact writtenProgress_le_100 _ _
    · exact ih _ x h

/-- Claim C6: across any sequence of successive section approvals with a fixed
positive soft target, the progress percentages written to the Config Record
are monotonically non-decreasing and clamped at 100, because each approval
only appends to the story record before progress is recomputed. -/
theorem section_progress_monotone_clamped (story : List Char) (softTarget : Nat)
    (apps : List ApprovalStep) (h : 0 < softTarget) :
    List.Chain' (· ≤ ·) (progressValues story softTarget apps) ∧
    ∀ x ∈ progressValues story softTarget apps, x ≤ 100 :=
  ⟨(progressValues_chain softTarget apps story).tail,
    progressValues_le_100 softTarget apps story⟩

/-- Witness for C6: two approvals on a concrete story with soft target 5. -/
theorem section_progress_monotone_clamped_witness :
    List.Chain' (· ≤ ·)
      (progressValues (chars "a") 5 [⟨true, 1, chars "bb"⟩, ⟨false, 1, chars "cc"⟩]) ∧
    ∀ x ∈ progressValues (chars "a") 5 [⟨true, 1, chars "bb"⟩, ⟨false, 1, chars "cc"⟩],
      x ≤ 100 :=
  section_progress_monotone_clamped (chars "a") 5
    [⟨true, 1, chars "bb"⟩, ⟨false, 1, chars "cc"⟩] (by decide)

/-! ### Config Record read-modify-write (`approve_section`,
src/ans/backend/thread.py lines 1917-1963).

The read loop collects every line containing `':'` into a dict via
`key, value = line.split(':', 1)` and `config_data[key.strip()] = value.strip()`;
the counters are merged with `config_data.update(config_updates)`; the write
loop emits one `f"{key}: {value}\n"` line per entry.  A file is a list of
lines (no embedded newlines). -/

/-- Python `line.split(':', 1)` for a line containing `':'` — split at the
first colon; `none` when the line has no colon. -/
def splitColon1 : List Char → Option (List Char × List Char)
  | [] => none
  | c :: rest =>
    if c = ':' then some ([], rest)
    else
      match splitColon1 rest with
      | some (k, v) => some (c :: k, v)
      | none => none

/-- Parse one config line into `(key.strip(), value.strip())`; lines without a
colon are skipped. -/
def parseConfigLine (line : List Char) : Option (List Char × List Char) :=
  match splitColon1 line with
  | some (k, v) => some (pyStrip k, pyStrip v)
  | none => none

/-- One iteration of the config read loop. -/
def parseConfigStep (m : List (List Char × List Char)) (line : List Char) :
    List (List Char × List Char) :=
  match parseConfigLine line with
  | some (k, v) => dictInsert m k v
  | none => m

/-- The config read loop (lines 1921-1930): fold the lines into a dict. -/
def parseConfig (lines : List (List Char)) : List (List Char × List Char) :=
  lines.foldl parseConfigStep []

/-- The config write loop (lines 1961-1963): one `"key: value"` line per
entry, in dict order. -/
def serializeConfig (m : List (List Char × List Char)) : List (List Char) :=
  m.map fun kv => kv.1 ++ chars ": " ++ kv.2

/-- The `config_updates` dict built at approval (lines 1950-1955). -/
def approveConfigUpdates (nextChapter nextSection sectionWords progressPct : Nat) :
    List (List Char × List Char) :=
  [(chars "CurrentChapter", natToChars nextChapter),
   (chars "CurrentSection", natToChars nextSection),
   (chars "SectionWords", natToChars sectionWords),
   (chars "Progress", natToChars progressPct ++ chars "%")]

/-- Python `config_data.update(config_updates)`: assign each update in order. -/
def updateDict (m us : List (List Char × List Char)) :
    List (List Char × List Char) :=
  us.foldl (fun acc kv => dictInsert acc kv.1 kv.2) m

/-- Full Config Record rewrite performed by `approve_section`: parse, merge
the counter updates, serialize. -/
def approveConfigRewrite (lines : List (List Char)) (nc ns sw p : Nat) :
    List (List Char) :=
  serializeConfig (updateDict (parseConfig lines) (approveConfigUpdates nc ns sw p))

/-- A string fixed by stripping on both sides. -/
def trimmed (x : List Char) : Prop :=
  List.dropWhile isPySpace x = x ∧ List.rdropWhile isPySpace x = x

/-- Well-formedness of one dict entry as produced by the config parser:
stripped colon-free key, stripped value. -/
def entryWF (kv : List Char × List Char) : Prop :=
  trimmed kv.1 ∧ (':' ∉ kv.1) ∧ trimmed kv.2

/-- Well-formedness of a parsed config dict: well-formed entries with distinct
keys. -/
def dictWF (m : List (List Char × List Char)) : Prop :=
  (∀ kv ∈ m, entryWF kv) ∧ (dictKeys m).Nodup

/-- Instance: `trimmed` is decidable (it is a pair of list equations). -/
instance (x : List Char) : Decidable (trimmed x) := by
  unfold trimmed; infer_instance

/-- Instance: `entryWF` is decidable. -/
instance (kv : List Char × List Char) : Decidable (entryWF kv) := by
  unfold entryWF; infer_instance

/-- Fixed points of `dropWhile` have a head not satisfying the predicate. -/
theorem head_false_of_dropWhile_fix {p : Char → Bool} {c : Char} {t : List Char}
    (h : List.dropWhile p (c :: t) = c :: t) : p c = false := by
  by_cases hpc : p c = true
  · exfalso
    rw [List.dropWhile_cons, if_pos hpc] at h
    have hlen := congrArg List.length h
    have hle : (List.dropWhile p t).length ≤ t.length :=
      (List.dropWhile_suffix p).sublist.length_le
    simp at hlen
    omega
  · simpa using hpc

/-- Right-stripping preserves being a fixed point of left-stripping. -/
theorem dropWhile_rdropWhile_fix {p : Char → Bool} {y : List Char}
    (hy : List.dropWhile p y = y) :
    List.dropWhile p (List.rdropWhile p y) = List.rdropWhile p y := by
  cases y with
  | nil => simp [List.rdropWhile_nil]
  | cons c t =>
    have hpc : p c = false := head_false_of_dropWhile_fix hy
    cases hr : List.rdropWhile p (c :: t) with
    | nil => rfl
    | cons d z =>
      have hpre := List.rdropWhile_prefix p (c :: t)
      rw [hr] at hpre
      obtain ⟨w, hw⟩ := hpre
      have hdc : d = c := by
        have := hw
        simp at this
        exact this.1
      subst hdc
      rw [List.dropWhile_cons, if_neg (by simp [hpc])]

/-- Stripped strings are fixed by stripping on both sides. -/
theorem trimmed_pyStrip (x : List Char) : trimmed (pyStrip x) := by
  constructor
  · exact dropWhile_rdropWhile_fix (List.dropWhile_idempotent isPySpace x)
  · exact List.rdropWhile_idempotent isPySpace (List.dropWhile isPySpace x)

/-- Stripping is the identity on trimmed strings. -/
theorem pyStrip_eq_self {x : List Char} (h : trimmed x) : pyStrip x = x := by
  unfold pyStrip
  rw [h.1, h.2]

/-- Members of the stripped string are members of the original. -/
theorem mem_pyStrip {a : Char} {x : List Char} (h : a ∈ pyStrip x) : a ∈ x := by
  unfold pyStrip at h
  have h1 : a ∈ List.dropWhile isPySpace x :=
    ( List.rdropWhile_prefix isPySpace (List.dropWhile isPySpace x)).sublist.subset h
  exact (List.dropWhile_suffix isPySpace).sublist.subset h1

/-- A list of characters none of which is whitespace is fixed by
`dropWhile`. -/
theorem dropWhile_eq_self_of_all {p : Char → Bool} :
    ∀ l : List Char, (∀ c ∈ l, p c = false) → List.dropWhile p l = l
  | [], _ => rfl
  | c :: t, h => by
    have hc : p c = false := h c (by simp)
    simp [List.dropWhile_cons, hc]

/-- A list of characters none of which is whitespace is fixed by
`rdropWhile`. -/
theorem rdropWhile_eq_self_of_all {p : Char → Bool} (l : List Char)
    (h : ∀ c ∈ l, p c = false) : List.rdropWhile p l = l := by
  unfold List.rdropWhile
  rw [dropWhile_eq_self_of_all l.reverse (fun c hc => h c (List.mem_reverse.mp hc)),
    List.reverse_reverse]

/-- Strings with no whitespace characters are trimmed. -/
theorem trimmed_of_all_nonspace (l : List Char)
    (h : ∀ c ∈ l, isPySpace c = false) : trimmed l :=
  ⟨dropWhile_eq_self_of_all l h, rdropWhile_eq_self_of_all l h⟩

/-- Decimal digit characters are non-whitespace and distinct from the
colon. -/
theorem digitChar_ok (d : Nat) :
    isPySpace (digitChar d) = false ∧ digitChar d ≠ ':' := by
  unfold digitChar
  have h : d % 10 < 10 := Nat.mod_lt _ (by norm_num)
  generalize hg : d % 10 = e at h ⊢
  interval_cases e <;> exact (by decide)

/-- Every character of a rendered natural number is a digit-like character:
non-whitespace and distinct from the colon. -/
theorem natToCharsGo_all {P : Char → Prop} (hd : ∀ d, P (digitChar d)) :
    ∀ fuel n acc, (∀ c ∈ acc, P c) → ∀ c ∈ natToCharsGo fuel n acc, P c := by
  intro fuel
  induction fuel with
  | zero =>
    intro n acc hacc c hc
    rw [natToCharsGo] at hc
    rcases List.mem_cons.mp hc with h | h
    · subst h; exact hd n
    · exact hacc c h
  | succ fuel ih =>
    intro n acc hacc c hc
    rw [natToCharsGo] at hc
    by_cases h : n < 10
    · rw [if_pos h] at hc
      rcases List.mem_cons.mp hc with h2 | h2
      · subst h2; exact hd n
      · exact hacc c h2
    · rw [if_neg h] at hc
      refine ih (n / 10) (digitChar (n % 10) :: acc) ?_ c hc
      intro c2 hc2
      rcases List.mem_cons.mp hc2 with h2 | h2
      · subst h2; exact hd (n % 10)
      · exact hacc c2 h2

/-- Characters of `natToChars` are non-whitespace and not colons. -/
theorem natToChars_ok (n : Nat) :
    ∀ c ∈ natToChars n, isPySpace c = false ∧ c ≠ ':' :=
  natToCharsGo_all (fun d => digitChar_ok d) n n [] (by simp)

/-- Rendered natural numbers are trimmed. -/
theorem natToChars_trimmed (n : Nat) : trimmed (natToChars n) :=
  trimmed_of_all_nonspace _ (fun c hc => (natToChars_ok n c hc).1)

/-- The rendered progress percentage `str(int(...)) + "%"` is trimmed. -/
theorem progressValue_trimmed (n : Nat) : trimmed (natToChars n ++ chars "%") := by
  apply trimmed_of_all_nonspace
  intro c hc
  rcases List.mem_append.mp hc with h | h
  · exact (natToChars_ok n c h).1
  · have : c = '%' := by simpa [chars] using h
    subst this; decide

/-- Splitting at the first colon of `k ++ ':' :: rest` recovers `k` when `k`
has no colon. -/
theorem splitColon1_append_no_colon :
    ∀ k rest : List Char, ':' ∉ k →
      splitColon1 (k ++ ':' :: rest) = some (k, rest) := by
  intro k
  induction k with
  | nil => intro rest _; simp [splitColon1]
  | cons c k' ih =>
    intro rest h
    have hc : ¬ c = ':' := fun he => h (by simp [he])
    have hk' : ':' ∉ k' := fun hm => h (by simp [hm])
    simp [splitColon1, hc, ih rest hk']

/-- Stripping swallows the single space the serializer writes after the
colon. -/
theorem pyStrip_space_cons (v : List Char) : pyStrip (' ' :: v) = pyStrip v := by
  unfold pyStrip
  rw [List.dropWhile_cons, if_pos (by decide)]

/-- Parsing a serialized well-formed entry gives the entry back. -/
theorem parseConfigLine_serialize (k v : List Char) (h : entryWF (k, v)) :
    parseConfigLine (k ++ chars ": " ++ v) = some (k, v) := by
  have hsh : k ++ chars ": " ++ v = k ++ ':' :: (' ' :: v) := by
    simp [chars, List.append_assoc]
  rw [hsh, parseConfigLine, splitColon1_append_no_colon k (' ' :: v) h.2.1]
  show some (pyStrip k, pyStrip (' ' :: v)) = some (k, v)
  rw [pyStrip_space_cons, pyStrip_eq_self h.1, pyStrip_eq_self h.2.2]

/-- Inserting a fresh key appends the entry. -/
theorem dictInsert_not_mem {κ α : Type} [DecidableEq κ] :
    ∀ (m : List (κ × α)) (k : κ) (v : α), k ∉ dictKeys m →
      dictInsert m k v = m ++ [(k, v)] := by
  intro m
  induction m with
  | nil => intro k v _; rfl
  | cons kv rest ih =>
    intro k v h
    obtain ⟨k', v'⟩ := kv
    have hk : ¬ k' = k := fun he => h (by simp [dictKeys, he])
    have hr : k ∉ dictKeys rest := fun hm => h (by simp [dictKeys] at hm ⊢; exact Or.inr hm)
    simp [dictInsert, hk, ih k v hr]

/-- Folding the parser over a serialized well-formed dict appends it to the
accumulator. -/
theorem parseConfig_foldl_serialize :
    ∀ (m acc : List (List Char × List Char)),
      (∀ kv ∈ m, entryWF kv) → (dictKeys (acc ++ m)).Nodup →
      List.foldl parseConfigStep acc (serializeConfig m) = acc ++ m := by
  intro m
  induction m with
  | nil => intro acc _ _; simp [serializeConfig]
  | cons kv m' ih =>
    intro acc hWF hnd
    obtain ⟨k, v⟩ := kv
    have hkv : entryWF (k, v) := hWF (k, v) (by simp)
    have hstep : parseConfigStep acc (k ++ chars ": " ++ v) = acc ++ [(k, v)] := by
      rw [parseConfigStep, parseConfigLine_serialize k v hkv]
      apply dictInsert_not_mem
      intro hmem
      have h1 : dictKeys (acc ++ (k, v) :: m') =
          dictKeys acc ++ (k :: dictKeys m') := by
        simp [dictKeys]
      rw [h1, List.nodup_append] at hnd
      exact hnd.2.2 hmem (by simp)
    have hser : serializeConfig ((k, v) :: m') =
        (k ++ chars ": " ++ v) :: serializeConfig m' := rfl
    have hnd' : (dictKeys ((acc ++ [(k, v)]) ++ m')).Nodup := by
      have h2 : (acc ++ [(k, v)]) ++ m' = acc ++ (k, v) :: m' := by
        simp [List.append_assoc]
      rw [h2]; exact hnd
    rw [hser, List.foldl_cons, hstep,
      ih (acc ++ [(k, v)]) (fun kv2 h2 => hWF kv2 (by simp [h2])) hnd']
    simp [List.append_assoc]

/-- Round trip: parsing the serialization of a well-formed dict is the
identity. -/
theorem parseConfig_serializeConfig (m : List (List Char × List Char))
    (h : dictWF m) : parseConfig (serializeConfig m) = m := by
  have := parseConfig_foldl_serialize m [] h.1 (by simpa using h.2)
  simpa [parseConfig] using this

/-- The key produced by a first-colon split contains no colon. -/
theorem splitColon1_no_colon :
    ∀ (l k v : List Char), splitColon1 l = some (k, v) → ':' ∉ k := by
  intro l
  induction l with
  | nil => intro k v h; simp [splitColon1] at h
  | cons c rest ih =>
    intro k v h
    by_cases hc : c = ':'
    · subst hc
      simp [splitColon1] at h
      rw [h.1]
      simp
    · rw [splitColon1] at h
      rw [if_neg hc] at h
      cases hsp : splitColon1 rest with
      | none => rw [hsp] at h; simp at h
      | some kv =>
        obtain ⟨k0, v0⟩ := kv
        rw [hsp] at h
        simp at h
        rw [← h.1]
        intro hmem
        rcases List.mem_cons.mp hmem with he | he
        · exact hc he.symm
        · exact ih k0 v0 hsp he

/-- Entries produced by the line parser are well-formed. -/
theorem parseConfigLine_WF (line k v : List Char)
    (h : parseConfigLine line = some (k, v)) : entryWF (k, v) := by
  rw [parseConfigLine] at h
  cases hsp : splitColon1 line with
  | none => rw [hsp] at h; simp at h
  | some kv =>
    obtain ⟨k0, v0⟩ := kv
    rw [hsp] at h
    simp at h
    refine ⟨?_, ?_, ?_⟩
    · rw [← h.1]; exact trimmed_pyStrip k0
    · rw [← h.1]
      intro hmem
      exact splitColon1_no_colon line k0 v0 hsp (mem_pyStrip hmem)
    · rw [← h.2]; exact trimmed_pyStrip v0

/-- Keys after a dict assignment: unchanged when the key was present,
otherwise the key is appended. -/
theorem dictKeys_insert {κ α : Type} [DecidableEq κ] :
    ∀ (m : List (κ × α)) (k : κ) (v : α),
      dictKeys (dictInsert m k v) =
        if k ∈ dictKeys m then dictKeys m else dictKeys m ++ [k] := by
  intro m
  induction m with
  | nil => intro k v; simp [dictInsert, dictKeys]
  | cons kv rest ih =>
    intro k v
    obtain ⟨k', v'⟩ := kv
    by_cases hk : k' = k
    · subst hk; simp [dictInsert, dictKeys]
    · have hkk : ¬ k = k' := fun he => hk he.symm
      have ihx := ih k v
      simp only [dictKeys] at ihx
      by_cases hm : k ∈ List.map Prod.fst rest <;>
        simp [dictInsert, dictKeys, hk, hkk, hm, ihx]

/-- Entries after a dict assignment with a well-formed entry stay
well-formed. -/
theorem dictInsert_entries {m : List (List Char × List Char)}
    {k v : List Char} (hkv : entryWF (k, v)) (h : ∀ kv ∈ m, entryWF kv) :
    ∀ kv2 ∈ dictInsert m k v, entryWF kv2 := by
  induction m with
  | nil =>
    intro kv2 h2
    simp [dictInsert] at h2
    subst h2; exact hkv
  | cons kv' rest ih =>
    obtain ⟨k', v'⟩ := kv'
    intro kv2 h2
    by_cases hk : k' = k
    · subst hk
      simp [dictInsert] at h2
      rcases h2 with h2 | h2
      · subst h2
        have hold := h (k', v') (by simp)
        exact ⟨hold.1, hold.2.1, hkv.2.2⟩
      · exact h kv2 (by simp [h2])
    · simp [dictInsert, hk] at h2
      rcases h2 with h2 | h2
      · subst h2; exact h (k', v') (by simp)
      · exact ih (fun kv3 h3 => h kv3 (by simp [h3])) kv2 h2

/-- Dict well-formedness is preserved by assignment of a well-formed entry. -/
theorem dictWF_insert {m : List (List Char × List Char)} {k v : List Char}
    (h : dictWF m) (hkv : entryWF (k, v)) : dictWF (dictInsert m k v) := by
  refine ⟨dictInsert_entries hkv h.1, ?_⟩
  rw [dictKeys_insert]
  by_cases hm : k ∈ dictKeys m
  · simpa [hm] using h.2
  · rw [if_neg hm]
    simp [List.nodup_append, h.2, hm]

/-- Parsing any list of lines produces a well-formed dict. -/
theorem parseConfig_go_WF (lines : List (List Char)) :
    ∀ acc, dictWF acc → dictWF (List.foldl parseConfigStep acc lines) := by
  induction lines with
  | nil => intro acc h; exact h
  | cons line rest ih =>
    intro acc h
    rw [List.foldl_cons]
    apply ih
    rw [parseConfigStep]
    cases hpl : parseConfigLine line with
    | none => exact h
    | some kv =>
      obtain ⟨k, v⟩ := kv
      exact dictWF_insert h (parseConfigLine_WF line k v hpl)

/-- The config parser always yields a well-formed dict. -/
theorem parseConfig_WF (lines : List (List Char)) : dictWF (parseConfig lines) :=
  parseConfig_go_WF lines [] ⟨by simp, by simp [dictKeys]⟩

/-- Merging well-formed updates preserves dict well-formedness. -/
theorem updateDict_WF :
    ∀ (us m : List (List Char × List Char)), dictWF m →
      (∀ kv ∈ us, entryWF kv) → dictWF (updateDict m us) := by
  intro us
  induction us with
  | nil => intro m h _; exact h
  | cons kv us' ih =>
    intro m h hus
    obtain ⟨k, v⟩ := kv
    rw [updateDict, List.foldl_cons]
    exact ih (dictInsert m k v) (dictWF_insert h (hus (k, v) (by simp)))
      (fun kv2 h2 => hus kv2 (by simp [h2]))

/-- The four counter updates of `approve_section` are well-formed entries. -/
theorem approveConfigUpdates_WF (nc ns sw p : Nat) :
    ∀ kv ∈ approveConfigUpdates nc ns sw p, entryWF kv := by
  intro kv hkv
  simp [approveConfigUpdates] at hkv
  rcases hkv with h | h | h | h <;> subst h
  · exact ⟨by show trimmed (chars "CurrentChapter"); decide,
      by show ':' ∉ chars "CurrentChapter"; decide, natToChars_trimmed nc⟩
  · exact ⟨by show trimmed (chars "CurrentSection"); decide,
      by show ':' ∉ chars "CurrentSection"; decide, natToChars_trimmed ns⟩
  · exact ⟨by show trimmed (chars "SectionWords"); decide,
      by show ':' ∉ chars "SectionWords"; decide, natToChars_trimmed sw⟩
  · exact ⟨by show trimmed (chars "Progress"); decide,
      by show ':' ∉ chars "Progress"; decide, progressValue_trimmed p⟩

/-- Claim C5: the Config Record rewrite of `approve_section` is
read-modify-write: every key present in the original file is still present
with its value after the rewrite, the only changed values being the four
counter/progress keys the approval touches. -/
theorem config_rewrite_preserves_keys (lines : List (List Char))
    (nc ns sw p : Nat) (k v : List Char)
    (hk : dictLookup (parseConfig lines) k = some v) :
    dictLookup (parseConfig (approveConfigRewrite lines nc ns sw p)) k =
      some (if k = chars "CurrentChapter" then natToChars nc
        else if k = chars "CurrentSection" then natToChars ns
        else if k = chars "SectionWords" then natToChars sw
        else if k = chars "Progress" then natToChars p ++ chars "%"
        else v) := by
  have hWF : dictWF (updateDict (parseConfig lines) (approveConfigUpdates nc ns sw p)) :=
    updateDict_WF _ _ (parseConfig_WF lines) (approveConfigUpdates_WF nc ns sw p)
  rw [approveConfigRewrite, parseConfig_serializeConfig _ hWF]
  have hun : updateDict (parseConfig lines) (approveConfigUpdates nc ns sw p) =
      dictInsert (dictInsert (dictInsert (dictInsert (parseConfig lines)
        (chars "CurrentChapter") (natToChars nc))
        (chars "CurrentSection") (natToChars ns))
        (chars "SectionWords") (natToChars sw))
        (chars "Progress") (natToChars p ++ chars "%") := rfl
  rw [hun, dictLookup_dictInsert, dictLookup_dictInsert, dictLookup_dictInsert,
    dictLookup_dictInsert]
  by_cases h1 : k = chars "CurrentChapter"
  · subst h1
    rw [if_neg (by decide), if_neg (by decide), if_neg (by decide), if_pos rfl,
      if_pos rfl]
  · by_cases h2 : k = chars "CurrentSection"
    · subst h2
      rw [if_neg (by decide), if_neg (by decide), if_pos rfl, if_neg h1,
        if_pos rfl]
    · by_cases h3 : k = chars "SectionWords"
      · subst h3
        rw [if_neg (by decide), if_pos rfl, if_neg h1, if_neg h2, if_pos rfl]
      · by_cases h4 : k = chars "Progress"
        · subst h4
          rw [if_pos rfl, if_neg h1, if_neg h2, if_neg h3, if_pos rfl]
        · rw [if_neg (fun he => h4 he.symm), if_neg (fun he => h3 he.symm),
            if_neg (fun he => h2 he.symm), if_neg (fun he => h1 he.symm),
            hk, if_neg h1, if_neg h2, if_neg h3, if_neg h4]

/-- Witness for C5: a config file with an untouched key `Idea` and a touched
key `CurrentChapter` keeps `Idea` and updates `CurrentChapter`. -/
theorem config_rewrite_preserves_keys_witness :
    dictLookup (parseConfig (approveConfigRewrite
        [chars "Idea: x", chars "CurrentChapter: 1"] 2 1 7 3)) (chars "Idea") =
      some (chars "x") := by
  have h := config_rewrite_preserves_keys
    [chars "Idea: x", chars "CurrentChapter: 1"] 2 1 7 3 (chars "Idea")
    (chars "x") (by decide)
  rw [h]
  rw [if_neg (by decide), if_neg (by decide), if_neg (by decide),
    if_neg (by decide)]

/-- Claim C1 (code divergence): `approve_section` rolls the chapter over only
when the incoming section counter reaches the hard-coded literal 3, ignoring
the configured sections-per-chapter count.  With sections-per-chapter
configured to 2, approving section 2 of chapter 1 must (per the claim) yield
`(CurrentChapter, CurrentSection) = (2, 1)`, but the code writes `(1, 3)`. -/
theorem approveSectionCounters_ignores_configured_threshold :
    approveSectionCounters 1 2 = (1, 3) ∧ approveSectionCounters 1 2 ≠ (2, 1) := by
  decide

end ANS
